import Mathlib

/-!
Shallow embedding of `flurs/base.py`: the `Recommender` base class of the
flurs incremental-recommendation library, and its shared
scores-to-recommendations transformation `scores2recos`.

Modelling choices:
* Python `float` scores are modelled as `ℚ` (a linear order; the claims are
  about ordering and permutation only, and no NaN arises in the spec's
  scenarios).
* Python `dict` objects (`self.users`, `self.items`) are modelled as
  association lists with Python dict assignment semantics: assigning to an
  existing key replaces its value in place, assigning to a fresh key appends
  it; `len(dict)` is the list length (keys are never duplicated along any
  run starting from the empty dict).
* `np.argsort(scores)` (default `kind='quicksort'`, whose tie order numpy
  documents as unspecified) is modelled as an ascending argsort with ties
  determinized by input position, so that the embedding is a concrete
  executable function. Every general theorem below is invariant under the
  choice of tie order (sortedness, permutation/length facts, the `rev`
  branch reversing the one permutation that was computed, truncation and
  out-of-bounds behaviour); the only statements that depend on the realised
  tie order are concrete evaluations on arrays of at most three elements,
  which numpy's sort handles with its stable insertion-sort path.
  `target_i_indices[sorted_indices]` (numpy fancy indexing) is modelled as
  `fancyIndex`, which fails (returns `none`, the IndexError) exactly when
  some index is out of bounds.
* The methods perform no writes to `self` or to their argument arrays
  (`np.argsort` and fancy indexing allocate fresh arrays), so
  `scores2recos` is embedded as a pure function; `scores2recosMethod`
  additionally threads the recommender state to record the frame property.
-/

/-- A user as seen by the core: only its integer index matters
(`user.index` in `add_user`). -/
structure User where
  index : Nat
deriving DecidableEq

/-- An item as seen by the core: only its integer index matters
(`item.index` in `add_item`). -/
structure Item where
  index : Nat
deriving DecidableEq

/-- The per-user record created by `add_user`:
`self.users[user.index] = {'observed': set()}`. -/
structure UserRecord where
  observed : Finset Nat
deriving DecidableEq

/-- The per-item record created by `add_item`:
`self.items[item.index] = {}` (empty in the base class). -/
structure ItemRecord where
deriving DecidableEq

/-- Python dict lookup `d[k]` (as an `Option`), on the association-list
model of a dict. -/
def dictGet {β : Type} : List (Nat × β) → Nat → Option β
  | [], _ => none
  | p :: rest, k => if p.1 == k then some p.2 else dictGet rest k

/-- Python dict membership `k in d`. -/
def dictHasKey {β : Type} : List (Nat × β) → Nat → Bool
  | [], _ => false
  | p :: rest, k => p.1 == k || dictHasKey rest k

/-- Python dict assignment `d[k] = v`: replaces the value of an existing
key in place, otherwise appends the new key at the end. -/
def dictSet {β : Type} : List (Nat × β) → Nat → β → List (Nat × β)
  | [], k, v => [(k, v)]
  | p :: rest, k, v => if p.1 == k then (k, v) :: rest else p :: dictSet rest k v

/-- The state of a `Recommender`: `n_user`, `users`, `n_item`, `items`
(`Recommender.__init__`). -/
structure RecState where
  n_user : Nat
  users : List (Nat × UserRecord)
  n_item : Nat
  items : List (Nat × ItemRecord)
deriving DecidableEq

/-- `Recommender.__init__`: both counters zero, both dicts empty. -/
def initState : RecState :=
  { n_user := 0, users := [], n_item := 0, items := [] }

/-- `Recommender.is_new_user(u)`: `u not in self.users`. -/
def isNewUser (st : RecState) (u : Nat) : Bool :=
  ! dictHasKey st.users u

/-- `Recommender.is_new_item(i)`: `i not in self.items`. -/
def isNewItem (st : RecState) (i : Nat) : Bool :=
  ! dictHasKey st.items i

/-- `Recommender.add_user(user)`:
`self.users[user.index] = {'observed': set()}` then `self.n_user += 1`.
The source performs no check that the index is new. -/
def addUser (st : RecState) (user : User) : RecState :=
  { st with
    users := dictSet st.users user.index { observed := ∅ }
    n_user := st.n_user + 1 }

/-- `Recommender.add_item(item)`:
`self.items[item.index] = {}` then `self.n_item += 1`.
The source performs no check that the index is new. -/
def addItem (st : RecState) (item : Item) : RecState :=
  { st with
    items := dictSet st.items item.index {}
    n_item := st.n_item + 1 }

/-- The operations of the base contract that touch or read the registry
state. The query operations carry their arguments so that a trace records
every call made. -/
inductive Op where
  | addUserOp : User → Op
  | addItemOp : Item → Op
  | isNewUserQ : Nat → Op
  | isNewItemQ : Nat → Op
  | scores2recosQ : List ℚ → List Nat → Bool → Op

/-- State transition of one operation: `add_user`/`add_item` mutate the
registry; the query methods assign nothing to `self` and leave the state
unchanged. -/
def applyOp (st : RecState) : Op → RecState
  | Op.addUserOp u => addUser st u
  | Op.addItemOp i => addItem st i
  | Op.isNewUserQ _ => st
  | Op.isNewItemQ _ => st
  | Op.scores2recosQ _ _ _ => st

/-- Run a sequence of operations from a state. -/
def runOps (st : RecState) : List Op → RecState
  | [] => st
  | op :: rest => runOps (applyOp st op) rest

/-- A trace respects the documented registration precondition when every
`add_user`/`add_item` call is made only for a currently-new index. -/
def okTrace (st : RecState) : List Op → Bool
  | [] => true
  | op :: rest =>
    (match op with
     | Op.addUserOp u => isNewUser st u.index
     | Op.addItemOp i => isNewItem st i.index
     | _ => true) && okTrace (applyOp st op) rest

/-- The order computed by a stable ascending argsort of `s`: index `i`
precedes index `j` when `s[i] < s[j]`, or when the scores tie and `i` comes
first in the input. -/
def argsortRel (s : List ℚ) (i j : Nat) : Prop :=
  s.getD i 0 < s.getD j 0 ∨ (s.getD i 0 = s.getD j 0 ∧ i ≤ j)

instance argsortRelDecidable (s : List ℚ) : DecidableRel (argsortRel s) :=
  fun i j =>
    inferInstanceAs (Decidable (s.getD i 0 < s.getD j 0 ∨ (s.getD i 0 = s.getD j 0 ∧ i ≤ j)))

instance argsortRelTotal (s : List ℚ) : IsTotal Nat (argsortRel s) := by
  constructor
  intro i j
  rcases lt_trichotomy (s.getD i 0) (s.getD j 0) with h | h | h
  · exact Or.inl (Or.inl h)
  · rcases Nat.le_total i j with hle | hle
    · exact Or.inl (Or.inr ⟨h, hle⟩)
    · exact Or.inr (Or.inr ⟨h.symm, hle⟩)
  · exact Or.inr (Or.inl h)

instance argsortRelTrans (s : List ℚ) : IsTrans Nat (argsortRel s) := by
  constructor
  intro a b c hab hbc
  rcases hab with hab | ⟨eab, lab⟩
  · rcases hbc with hbc | ⟨ebc, _⟩
    · exact Or.inl (hab.trans hbc)
    · exact Or.inl (hab.trans_eq ebc)
  · rcases hbc with hbc | ⟨ebc, lbc⟩
    · exact Or.inl (eab.trans_lt hbc)
    · exact Or.inr ⟨eab.trans ebc, lab.trans lbc⟩

/-- `np.argsort(scores)`: a permutation of `0, ..., len(scores)-1` that
lists score positions in ascending score order. The source uses the
default `kind='quicksort'`, for which numpy leaves the order of equal
scores unspecified (non-stable in general); this embedding determinizes
ties by input position to obtain one concrete such permutation.
Theorems below do not rely on that tie order except when evaluating
concrete arrays small enough (at most three elements) to take numpy's
stable insertion-sort path. -/
def argsort (s : List ℚ) : List Nat :=
  List.insertionSort (argsortRel s) (List.range s.length)

/-- Numpy fancy indexing `t[idx]` for a list of non-negative indices:
returns the selected elements, or `none` (the `IndexError`) when some
index is out of bounds. -/
def fancyIndex {α : Type} : List α → List Nat → Option (List α)
  | _, [] => some []
  | t, i :: rest =>
    match t.get? i, fancyIndex t rest with
    | some a, some as => some (a :: as)
    | _, _ => none

/-- The `sorted_indices` local of `scores2recos`: `np.argsort(scores)`,
reversed in full (`sorted_indices[::-1]`) when `rev` is true. -/
def sortPerm (scores : List ℚ) (rev : Bool) : List Nat :=
  if rev then (argsort scores).reverse else argsort scores

/-- `Recommender.scores2recos(scores, target_i_indices, rev)`:
`sorted_indices = np.argsort(scores)`, reversed in full when `rev`, then
`(target_i_indices[sorted_indices], scores[sorted_indices])`; `none` when
the fancy indexing raises. -/
def scores2recos (scores : List ℚ) (target_i_indices : List Nat) (rev : Bool) :
    Option (List Nat × List ℚ) :=
  match fancyIndex target_i_indices (sortPerm scores rev),
        fancyIndex scores (sortPerm scores rev) with
  | some its, some scs => some (its, scs)
  | _, _ => none

/-- `scores2recos` as the method it is in the source: it reads `self` not
at all and assigns nothing to it, so the threaded state passes through
unchanged. -/
def scores2recosMethod (st : RecState) (scores : List ℚ) (target_i_indices : List Nat)
    (rev : Bool) : RecState × Option (List Nat × List ℚ) :=
  (st, scores2recos scores target_i_indices rev)

theorem dictGet_set_self {β : Type} (d : List (Nat × β)) (k : Nat) (v : β) :
    dictGet (dictSet d k v) k = some v := by
  induction d with
  | nil => simp [dictSet, dictGet]
  | cons p rest ih =>
    by_cases h : p.1 = k
    · simp [dictSet, dictGet, h]
    · simp [dictSet, dictGet, h, ih]

theorem dictGet_set_other {β : Type} (d : List (Nat × β)) (k k' : Nat) (v : β)
    (h : k' ≠ k) : dictGet (dictSet d k v) k' = dictGet d k' := by
  have h2 : ¬(k = k') := fun e => h (Eq.symm e)
  induction d with
  | nil => simp [dictSet, dictGet, h2]
  | cons p rest ih =>
    by_cases hp : p.1 = k
    · simp [dictSet, dictGet, hp, h2]
    · by_cases hp' : p.1 = k'
      · simp [dictSet, dictGet, hp, hp', h]
      · simp [dictSet, dictGet, hp, hp', ih]

theorem dictHasKey_set_self {β : Type} (d : List (Nat × β)) (k : Nat) (v : β) :
    dictHasKey (dictSet d k v) k = true := by
  induction d with
  | nil => simp [dictSet, dictHasKey]
  | cons p rest ih =>
    by_cases h : p.1 = k
    · simp [dictSet, dictHasKey, h]
    · simp [dictSet, dictHasKey, h, ih]

theorem dictHasKey_set_other {β : Type} (d : List (Nat × β)) (k k' : Nat) (v : β)
    (h : k' ≠ k) : dictHasKey (dictSet d k v) k' = dictHasKey d k' := by
  have h2 : ¬(k = k') := fun e => h (Eq.symm e)
  induction d with
  | nil => simp [dictSet, dictHasKey, h2]
  | cons p rest ih =>
    by_cases hp : p.1 = k
    · simp [dictSet, dictHasKey, hp, h2]
    · simp [dictSet, dictHasKey, hp, ih]

theorem length_dictSet_mem {β : Type} (d : List (Nat × β)) (k : Nat) (v : β)
    (h : dictHasKey d k = true) : (dictSet d k v).length = d.length := by
  induction d with
  | nil => simp [dictHasKey] at h
  | cons p rest ih =>
    by_cases hp : p.1 = k
    · simp [dictSet, hp]
    · simp only [dictHasKey, Bool.or_eq_true, beq_iff_eq] at h
      rcases h with h | h
      · exact absurd h hp
      · simp [dictSet, hp, ih h]

theorem length_dictSet_new {β : Type} (d : List (Nat × β)) (k : Nat) (v : β)
    (h : dictHasKey d k = false) : (dictSet d k v).length = d.length + 1 := by
  induction d with
  | nil => simp [dictSet]
  | cons p rest ih =>
    simp only [dictHasKey, Bool.or_eq_false_iff, beq_eq_false_iff_ne] at h
    simp [dictSet, h.1, ih h.2]

theorem argsort_perm (s : List ℚ) : (argsort s).Perm (List.range s.length) :=
  List.perm_insertionSort (argsortRel s) (List.range s.length)

theorem argsort_sorted (s : List ℚ) : List.Sorted (argsortRel s) (argsort s) :=
  List.sorted_insertionSort (argsortRel s) (List.range s.length)

theorem length_argsort (s : List ℚ) : (argsort s).length = s.length := by
  rw [(argsort_perm s).length_eq, List.length_range]

theorem mem_argsort (s : List ℚ) (i : Nat) : i ∈ argsort s ↔ i < s.length := by
  rw [(argsort_perm s).mem_iff, List.mem_range]

theorem mem_sortPerm (s : List ℚ) (rev : Bool) (i : Nat) :
    i ∈ sortPerm s rev ↔ i < s.length := by
  cases rev <;> simp [sortPerm, mem_argsort]

theorem length_sortPerm (s : List ℚ) (rev : Bool) :
    (sortPerm s rev).length = s.length := by
  cases rev <;> simp [sortPerm, length_argsort]

theorem sortPerm_perm_range (s : List ℚ) (rev : Bool) :
    (sortPerm s rev).Perm (List.range s.length) := by
  cases rev
  · simpa [sortPerm] using argsort_perm s
  · simpa [sortPerm] using (List.reverse_perm (argsort s)).trans (argsort_perm s)

theorem get?_eq_some_getD {α : Type} (t : List α) (i : Nat) (d : α)
    (h : i < t.length) : t.get? i = some (t.getD i d) := by
  rw [List.get?_eq_getElem?, List.getD_eq_getElem?_getD, List.getElem?_eq_getElem h]
  rfl

theorem fancyIndex_eq_map {α : Type} (t : List α) (idx : List Nat) (d : α)
    (h : ∀ i ∈ idx, i < t.length) :
    fancyIndex t idx = some (idx.map (fun i => t.getD i d)) := by
  induction idx with
  | nil => rfl
  | cons i rest ih =>
    have hi : i < t.length := h i (List.mem_cons_self i rest)
    have hrest : ∀ j ∈ rest, j < t.length := fun j hj => h j (List.mem_cons_of_mem i hj)
    simp only [fancyIndex, List.map_cons]
    rw [get?_eq_some_getD t i d hi, ih hrest]

theorem fancyIndex_eq_none {α : Type} (t : List α) (idx : List Nat) (i : Nat)
    (hmem : i ∈ idx) (h : t.length ≤ i) : fancyIndex t idx = none := by
  induction idx with
  | nil => simp at hmem
  | cons j rest ih =>
    rcases List.mem_cons.1 hmem with rfl | hmem'
    · have hn : t.get? i = none := List.get?_eq_none.2 h
      simp only [fancyIndex]
      rw [hn]
    · simp only [fancyIndex]
      rw [ih hmem']
      cases t.get? j <;> rfl

theorem map_getD_range {α : Type} (t : List α) (d : α) :
    (List.range t.length).map (fun i => t.getD i d) = t := by
  apply List.ext_getElem
  · simp
  · intro k h1 h2
    simp only [List.getElem_map, List.getElem_range]
    rw [List.getD_eq_getElem?_getD, List.getElem?_eq_getElem h2]
    rfl

theorem scores2recos_eq_some (s : List ℚ) (t : List Nat) (rev : Bool)
    (h : s.length = t.length) :
    scores2recos s t rev =
      some ((sortPerm s rev).map (fun i => t.getD i 0),
            (sortPerm s rev).map (fun i => s.getD i 0)) := by
  have hmemS : ∀ i ∈ sortPerm s rev, i < s.length :=
    fun i hi => (mem_sortPerm s rev i).1 hi
  have hmemT : ∀ i ∈ sortPerm s rev, i < t.length := fun i hi => h ▸ hmemS i hi
  rw [scores2recos, fancyIndex_eq_map t _ 0 hmemT, fancyIndex_eq_map s _ 0 hmemS]

theorem runOps_inv (tr : List Op) :
    ∀ st : RecState, st.n_user = st.users.length → st.n_item = st.items.length →
      okTrace st tr = true →
      (runOps st tr).n_user = (runOps st tr).users.length ∧
      (runOps st tr).n_item = (runOps st tr).items.length := by
  induction tr with
  | nil =>
    intro st h1 h2 _
    exact ⟨h1, h2⟩
  | cons op rest ih =>
    intro st h1 h2 hok
    cases op with
    | addUserOp u =>
      rw [okTrace, Bool.and_eq_true] at hok
      have hnew : dictHasKey st.users u.index = false := by
        simpa [isNewUser] using hok.1
      refine ih _ ?_ ?_ hok.2
      · simp [applyOp, addUser, length_dictSet_new st.users u.index { observed := ∅ } hnew, h1]
      · simpa [applyOp, addUser] using h2
    | addItemOp i =>
      rw [okTrace, Bool.and_eq_true] at hok
      have hnew : dictHasKey st.items i.index = false := by
        simpa [isNewItem] using hok.1
      refine ih _ ?_ ?_ hok.2
      · simpa [applyOp, addItem] using h1
      · simp [applyOp, addItem, length_dictSet_new st.items i.index {} hnew, h2]
    | isNewUserQ u =>
      simp only [okTrace, Bool.true_and] at hok
      exact ih _ (by simpa [applyOp] using h1) (by simpa [applyOp] using h2) hok
    | isNewItemQ i =>
      simp only [okTrace, Bool.true_and] at hok
      exact ih _ (by simpa [applyOp] using h1) (by simpa [applyOp] using h2) hok
    | scores2recosQ s t rev =>
      simp only [okTrace, Bool.true_and] at hok
      exact ih _ (by simpa [applyOp] using h1) (by simpa [applyOp] using h2) hok

theorem isNewUser_runOps (tr : List Op) :
    ∀ (st : RecState) (u : Nat), isNewUser st u = true →
      (∀ user : User, Op.addUserOp user ∈ tr → user.index ≠ u) →
      isNewUser (runOps st tr) u = true := by
  induction tr with
  | nil =>
    intro st u h _
    exact h
  | cons op rest ih =>
    intro st u h hops
    have hrest : ∀ user : User, Op.addUserOp user ∈ rest → user.index ≠ u :=
      fun user hm => hops user (List.mem_cons_of_mem _ hm)
    cases op with
    | addUserOp user =>
      have hne : u ≠ user.index :=
        Ne.symm (hops user (List.mem_cons_self _ _))
      refine ih _ u ?_ hrest
      have hk : dictHasKey st.users u = false := by simpa [isNewUser] using h
      simp only [applyOp, addUser, isNewUser]
      rw [dictHasKey_set_other st.users user.index u { observed := ∅ } hne, hk]
      rfl
    | addItemOp i =>
      refine ih _ u ?_ hrest
      simpa [applyOp, addItem, isNewUser] using h
    | isNewUserQ v =>
      exact ih _ u h hrest
    | isNewItemQ v =>
      exact ih _ u h hrest
    | scores2recosQ a b c =>
      exact ih _ u h hrest

theorem isNewItem_runOps (tr : List Op) :
    ∀ (st : RecState) (i : Nat), isNewItem st i = true →
      (∀ item : Item, Op.addItemOp item ∈ tr → item.index ≠ i) →
      isNewItem (runOps st tr) i = true := by
  induction tr with
  | nil =>
    intro st i h _
    exact h
  | cons op rest ih =>
    intro st i h hops
    have hrest : ∀ item : Item, Op.addItemOp item ∈ rest → item.index ≠ i :=
      fun item hm => hops item (List.mem_cons_of_mem _ hm)
    cases op with
    | addItemOp item =>
      have hne : i ≠ item.index :=
        Ne.symm (hops item (List.mem_cons_self _ _))
      refine ih _ i ?_ hrest
      have hk : dictHasKey st.items i = false := by simpa [isNewItem] using h
      simp only [applyOp, addItem, isNewItem]
      rw [dictHasKey_set_other st.items item.index i {} hne, hk]
      rfl
    | addUserOp u =>
      refine ih _ i ?_ hrest
      simpa [applyOp, addUser, isNewItem] using h
    | isNewUserQ v =>
      exact ih _ i h hrest
    | isNewItemQ v =>
      exact ih _ i h hrest
    | scores2recosQ a b c =>
      exact ih _ i h hrest

/-- C5 counterexample: registering item index 42 twice is not rejected —
the second `add_item` returns normally and increments `n_item` again, so
`n_item = 2` while `items` still has a single key. -/
theorem claim_C5_counterexample :
    (addItem (addItem initState (Item.mk 42)) (Item.mk 42)).n_item = 2 ∧
    (addItem (addItem initState (Item.mk 42)) (Item.mk 42)).items.length = 1 := by
  decide

/-- C5 (amended): a second `add_item` for an already-registered index is
not rejected: the call returns normally, resets the item record to `{}`
and increments `n_item` again (leaving the key count unchanged); the same
holds for `add_user`. Duplicate guarding is the caller's responsibility
via `is_new_item`/`is_new_user`. -/
theorem claim_C5_duplicate_add :
    (∀ (st : RecState) (item : Item), isNewItem st item.index = false →
      (addItem st item).n_item = st.n_item + 1 ∧
      (addItem st item).items.length = st.items.length ∧
      dictGet (addItem st item).items item.index = some ItemRecord.mk) ∧
    (∀ (st : RecState) (user : User), isNewUser st user.index = false →
      (addUser st user).n_user = st.n_user + 1 ∧
      (addUser st user).users.length = st.users.length ∧
      dictGet (addUser st user).users user.index = some (UserRecord.mk ∅)) := by
  constructor
  · intro st item h
    have hk : dictHasKey st.items item.index = true := by
      simpa [isNewItem] using h
    refine ⟨rfl, ?_, ?_⟩
    · simp [addItem, length_dictSet_mem st.items item.index {} hk]
    · simp [addItem, dictGet_set_self]
  · intro st user h
    have hk : dictHasKey st.users user.index = true := by
      simpa [isNewUser] using h
    refine ⟨rfl, ?_, ?_⟩
    · simp [addUser, length_dictSet_mem st.users user.index { observed := ∅ } hk]
    · simp [addUser, dictGet_set_self]

/-- C5 witness: the amended statement evaluated after first registering
item 42, so that index 42 is no longer new. -/
theorem claim_C5_duplicate_add_witness :
    isNewItem (addItem initState (Item.mk 42)) (Item.mk 42).index = false ∧
    ((addItem (addItem initState (Item.mk 42)) (Item.mk 42)).n_item =
        (addItem initState (Item.mk 42)).n_item + 1 ∧
      (addItem (addItem initState (Item.mk 42)) (Item.mk 42)).items.length =
        (addItem initState (Item.mk 42)).items.length ∧
      dictGet (addItem (addItem initState (Item.mk 42)) (Item.mk 42)).items
        (Item.mk 42).index = some ItemRecord.mk) :=
  ⟨by decide, claim_C5_duplicate_add.1 (addItem initState (Item.mk 42)) (Item.mk 42) (by decide)⟩

/-- C6 counterexample: the trace `add_item 42; add_item 42` consists of
contract operations only, yet in the resulting state `n_item = 2` while
`|items| = 1`, so the invariant does not hold in every reachable state. -/
theorem claim_C6_counterexample :
    (runOps initState [Op.addItemOp (Item.mk 42), Op.addItemOp (Item.mk 42)]).n_item = 2 ∧
    (runOps initState [Op.addItemOp (Item.mk 42), Op.addItemOp (Item.mk 42)]).items.length = 1 := by
  decide

/-- C6 (amended): `n_user = |users|` and `n_item = |items|` hold in the
freshly constructed state and in every state reached from it by contract
operations, provided every `add_user`/`add_item` in the run is applied to
a currently-new index (the documented precondition); a duplicate add
breaks the invariant. -/
theorem claim_C6_registry_invariant :
    ∀ tr : List Op, okTrace initState tr = true →
      (runOps initState tr).n_user = (runOps initState tr).users.length ∧
      (runOps initState tr).n_item = (runOps initState tr).items.length :=
  fun tr hok => runOps_inv tr initState rfl rfl hok

/-- C6 witness: a concrete precondition-respecting trace registering one
user and one item. -/
theorem claim_C6_registry_invariant_witness :
    okTrace initState [Op.addUserOp (User.mk 0), Op.addItemOp (Item.mk 5)] = true ∧
    ((runOps initState [Op.addUserOp (User.mk 0), Op.addItemOp (Item.mk 5)]).n_user =
        (runOps initState [Op.addUserOp (User.mk 0), Op.addItemOp (Item.mk 5)]).users.length ∧
      (runOps initState [Op.addUserOp (User.mk 0), Op.addItemOp (Item.mk 5)]).n_item =
        (runOps initState [Op.addUserOp (User.mk 0), Op.addItemOp (Item.mk 5)]).items.length) :=
  ⟨by decide,
   claim_C6_registry_invariant [Op.addUserOp (User.mk 0), Op.addItemOp (Item.mk 5)] (by decide)⟩

/-- C7: for a currently-new index, `add_user` creates exactly the record
`{observed: empty set}` under the new key, increments `n_user` by one,
adds exactly one key to `users`, leaves every other user record unchanged
and does not touch `items`/`n_item`; `add_item` behaves analogously with
the empty record. -/
theorem claim_C7_add_effect :
    (∀ (st : RecState) (user : User), isNewUser st user.index = true →
      dictGet (addUser st user).users user.index = some (UserRecord.mk ∅) ∧
      (addUser st user).n_user = st.n_user + 1 ∧
      (addUser st user).users.length = st.users.length + 1 ∧
      (∀ v, v ≠ user.index → dictGet (addUser st user).users v = dictGet st.users v) ∧
      (addUser st user).items = st.items ∧
      (addUser st user).n_item = st.n_item) ∧
    (∀ (st : RecState) (item : Item), isNewItem st item.index = true →
      dictGet (addItem st item).items item.index = some ItemRecord.mk ∧
      (addItem st item).n_item = st.n_item + 1 ∧
      (addItem st item).items.length = st.items.length + 1 ∧
      (∀ v, v ≠ item.index → dictGet (addItem st item).items v = dictGet st.items v) ∧
      (addItem st item).users = st.users ∧
      (addItem st item).n_user = st.n_user) := by
  constructor
  · intro st user h
    have hk : dictHasKey st.users user.index = false := by
      simpa [isNewUser] using h
    refine ⟨?_, rfl, ?_, ?_, rfl, rfl⟩
    · simp [addUser, dictGet_set_self]
    · simp [addUser, length_dictSet_new st.users user.index { observed := ∅ } hk]
    · intro v hv
      simp [addUser, dictGet_set_other st.users user.index v { observed := ∅ } hv]
  · intro st item h
    have hk : dictHasKey st.items item.index = false := by
      simpa [isNewItem] using h
    refine ⟨?_, rfl, ?_, ?_, rfl, rfl⟩
    · simp [addItem, dictGet_set_self]
    · simp [addItem, length_dictSet_new st.items item.index {} hk]
    · intro v hv
      simp [addItem, dictGet_set_other st.items item.index v {} hv]

/-- C7 witness: the effect of `add_user` evaluated at the fresh state and
a concrete user index. -/
theorem claim_C7_add_effect_witness :
    isNewUser initState (User.mk 3).index = true ∧
    (dictGet (addUser initState (User.mk 3)).users (User.mk 3).index =
        some (UserRecord.mk ∅) ∧
      (addUser initState (User.mk 3)).n_user = initState.n_user + 1 ∧
      (addUser initState (User.mk 3)).users.length = initState.users.length + 1 ∧
      (∀ v, v ≠ (User.mk 3).index →
        dictGet (addUser initState (User.mk 3)).users v = dictGet initState.users v) ∧
      (addUser initState (User.mk 3)).items = initState.items ∧
      (addUser initState (User.mk 3)).n_item = initState.n_item) :=
  ⟨by decide, claim_C7_add_effect.1 initState (User.mk 3) (by decide)⟩

/-- C8: `is_new_user(u)` is true in every state reached from the fresh
state without an `add_user` whose index is `u` (in particular in the
fresh state itself), is false immediately after `add_user` of `u`, and is
a pure lookup (the query leaves the state unchanged); `is_new_item`
behaves symmetrically. -/
theorem claim_C8_is_new :
    (∀ (tr : List Op) (u : Nat),
      (∀ user : User, Op.addUserOp user ∈ tr → user.index ≠ u) →
      isNewUser (runOps initState tr) u = true) ∧
    (∀ (st : RecState) (user : User), isNewUser (addUser st user) user.index = false) ∧
    (∀ (st : RecState) (u : Nat), applyOp st (Op.isNewUserQ u) = st) ∧
    (∀ (tr : List Op) (i : Nat),
      (∀ item : Item, Op.addItemOp item ∈ tr → item.index ≠ i) →
      isNewItem (runOps initState tr) i = true) ∧
    (∀ (st : RecState) (item : Item), isNewItem (addItem st item) item.index = false) ∧
    (∀ (st : RecState) (i : Nat), applyOp st (Op.isNewItemQ i) = st) := by
  refine ⟨?_, ?_, ?_, ?_, ?_, ?_⟩
  · intro tr u hops
    exact isNewUser_runOps tr initState u rfl hops
  · intro st user
    simp [isNewUser, addUser, dictHasKey_set_self]
  · intro st u
    rfl
  · intro tr i hops
    exact isNewItem_runOps tr initState i rfl hops
  · intro st item
    simp [isNewItem, addItem, dictHasKey_set_self]
  · intro st i
    rfl

/-- C8 witness: the trace parts of C8 evaluated on concrete traces — the
empty trace for users and a one-user trace for items. -/
theorem claim_C8_is_new_witness :
    isNewUser (runOps initState []) 5 = true ∧
    isNewUser (addUser initState (User.mk 5)) (User.mk 5).index = false ∧
    isNewItem (runOps initState [Op.addUserOp (User.mk 5)]) 7 = true :=
  ⟨claim_C8_is_new.1 [] 5 (fun user hm => absurd hm (List.not_mem_nil _)),
   claim_C8_is_new.2.1 initState (User.mk 5),
   claim_C8_is_new.2.2.2.1 [Op.addUserOp (User.mk 5)] 7 (fun item hm => by simp at hm)⟩

theorem pairwise_le_argsort (s : List ℚ) :
    List.Pairwise (fun i j => s.getD i 0 ≤ s.getD j 0) (argsort s) := by
  refine List.Pairwise.imp ?_ (argsort_sorted s)
  intro i j hij
  rcases hij with h1 | ⟨h1, _⟩
  · exact le_of_lt h1
  · exact le_of_eq h1

/-- C1: for equal-length inputs, `scores2recos` with `rev=false` returns
the scores (and correspondingly permuted items) in non-decreasing score
order, and with `rev=true` in non-increasing order; on
`scores=[0.3,0.1,0.2]`, `target_i_indices=[7,8,9]` it returns items
`[8,9,7]` with scores `[0.1,0.2,0.3]` for `rev=false` and items `[7,9,8]`
with scores `[0.3,0.2,0.1]` for `rev=true`. -/
theorem claim_C1_sorted_order :
    (∀ (s : List ℚ) (t : List Nat), s.length = t.length →
      ∃ ri rs, scores2recos s t false = some (ri, rs) ∧ List.Sorted (· ≤ ·) rs) ∧
    (∀ (s : List ℚ) (t : List Nat), s.length = t.length →
      ∃ ri rs, scores2recos s t true = some (ri, rs) ∧ List.Sorted (· ≥ ·) rs) ∧
    scores2recos [3/10, 1/10, 2/10] [7, 8, 9] false = some ([8, 9, 7], [1/10, 2/10, 3/10]) ∧
    scores2recos [3/10, 1/10, 2/10] [7, 8, 9] true = some ([7, 9, 8], [3/10, 2/10, 1/10]) := by
  refine ⟨?_, ?_, ?_, ?_⟩
  · intro s t h
    refine ⟨_, _, scores2recos_eq_some s t false h, ?_⟩
    have e : sortPerm s false = argsort s := by simp [sortPerm]
    rw [e]
    exact List.Pairwise.map _ (fun a b hab => hab) (pairwise_le_argsort s)
  · intro s t h
    refine ⟨_, _, scores2recos_eq_some s t true h, ?_⟩
    have e : sortPerm s true = (argsort s).reverse := by simp [sortPerm]
    rw [e, List.map_reverse]
    refine (List.pairwise_reverse).2 ?_
    exact List.Pairwise.map _ (fun a b hab => hab) (pairwise_le_argsort s)
  · norm_num [scores2recos, sortPerm, argsort, argsortRel, fancyIndex,
      List.insertionSort, List.orderedInsert, List.range, List.range.loop, List.get?]
  · norm_num [scores2recos, sortPerm, argsort, argsortRel, fancyIndex,
      List.insertionSort, List.orderedInsert, List.range, List.range.loop, List.get?]

/-- C1 witness: the two universal parts of C1 evaluated at a concrete
one-element input. -/
theorem claim_C1_sorted_order_witness :
    (∃ ri rs, scores2recos [1/2] [5] false = some (ri, rs) ∧ List.Sorted (· ≤ ·) rs) ∧
    (∃ ri rs, scores2recos [1/2] [5] true = some (ri, rs) ∧ List.Sorted (· ≥ ·) rs) :=
  ⟨claim_C1_sorted_order.1 [1/2] [5] rfl, claim_C1_sorted_order.2.1 [1/2] [5] rfl⟩

/-- C2 counterexample: with the tied scores `[0.5, 0.5]` and items
`[1, 2]`, `rev=true` returns items `[2, 1]` — the two equal-score
positions appear in reversed input order, because the `rev` branch
reverses the whole ascending sort permutation, ties included. The claim
requires original order `[1, 2]` for both `rev` settings. -/
theorem claim_C2_counterexample :
    scores2recos [1/2, 1/2] [1, 2] true = some ([2, 1], [1/2, 1/2]) := by
  norm_num [scores2recos, sortPerm, argsort, argsortRel, fancyIndex,
    List.insertionSort, List.orderedInsert, List.range, List.range.loop, List.get?]

/-- C2 (amended): `scores2recos` cannot be stable for both `rev`
settings. Both settings apply the one permutation computed by
`np.argsort` — `rev=true` merely reverses it in full — so any two
distinct positions, tied or not, appear in opposite relative orders in
the two outputs: whichever order the ascending pass gives a pair of
equal scores, `rev=true` reverses it. On the spec's scenario
(`scores=[0.5,0.5]`, `target_i_indices=[1,2]`), where numpy's sort takes
its stable insertion-sort path, `rev=false` returns items `[1,2]` in
original order while `rev=true` returns the reversed `[2,1]`. For larger
arrays with ties, no stability in either direction is guaranteed by the
code: the default `np.argsort` kind is quicksort, documented non-stable. -/
theorem claim_C2_stable_ranking :
    (∀ (s : List ℚ) (t : List Nat), s.length = t.length →
      ∃ p : List Nat, p.Perm (List.range s.length) ∧
        scores2recos s t false =
          some (p.map (fun i => t.getD i 0), p.map (fun i => s.getD i 0)) ∧
        scores2recos s t true =
          some ((p.reverse).map (fun i => t.getD i 0),
                (p.reverse).map (fun i => s.getD i 0)) ∧
        ∀ i j : Nat, [i, j].Sublist p → [j, i].Sublist p.reverse) ∧
    scores2recos [1/2, 1/2] [1, 2] false = some ([1, 2], [1/2, 1/2]) := by
  constructor
  · intro s t h
    have e0 : sortPerm s false = argsort s := by simp [sortPerm]
    have e1 : sortPerm s true = (argsort s).reverse := by simp [sortPerm]
    refine ⟨argsort s, argsort_perm s, ?_, ?_, ?_⟩
    · rw [scores2recos_eq_some s t false h, e0]
    · rw [scores2recos_eq_some s t true h, e1]
    · intro i j hsub
      simpa using hsub.reverse
  · norm_num [scores2recos, sortPerm, argsort, argsortRel, fancyIndex,
      List.insertionSort, List.orderedInsert, List.range, List.range.loop, List.get?]

/-- C2 witness: the universal part of the amended C2 evaluated at the
spec's tied-scores scenario. -/
theorem claim_C2_stable_ranking_witness :
    ∃ p : List Nat, p.Perm (List.range ([(1:ℚ)/2, 1/2]).length) ∧
      scores2recos [1/2, 1/2] [1, 2] false =
        some (p.map (fun i => ([1, 2] : List Nat).getD i 0),
              p.map (fun i => ([(1:ℚ)/2, 1/2]).getD i 0)) ∧
      scores2recos [1/2, 1/2] [1, 2] true =
        some ((p.reverse).map (fun i => ([1, 2] : List Nat).getD i 0),
              (p.reverse).map (fun i => ([(1:ℚ)/2, 1/2]).getD i 0)) ∧
      ∀ i j : Nat, [i, j].Sublist p → [j, i].Sublist p.reverse :=
  claim_C2_stable_ranking.1 [1/2, 1/2] [1, 2] rfl

/-- C3 counterexample: with `scores=[0.1]` and `target_i_indices=[7,8]`
(shorter scores), `scores2recos` does not fail: it returns `([7], [0.1])`,
silently truncating the item sequence — the claim requires an
invalid-argument failure. -/
theorem claim_C3_counterexample :
    scores2recos [1/10] [7, 8] false = some ([7], [1/10]) := by
  norm_num [scores2recos, sortPerm, argsort, argsortRel, fancyIndex,
    List.insertionSort, List.orderedInsert, List.range, List.range.loop, List.get?]

/-- C3 (amended): `scores2recos` performs no length check. When `scores`
is shorter than `target_i_indices` the call succeeds and silently
truncates: it returns `len(scores)` ranked entries, fewer than requested.
When `scores` is longer, the numpy indexing fails (IndexError). In both
cases the function is pure, so no state is changed (see C10). -/
theorem claim_C3_length_mismatch :
    ∀ (s : List ℚ) (t : List Nat) (rev : Bool),
      (s.length < t.length →
        ∃ ri rs, scores2recos s t rev = some (ri, rs) ∧
          ri.length = s.length ∧ rs.length = s.length ∧ ri.length < t.length) ∧
      (t.length < s.length → scores2recos s t rev = none) := by
  intro s t rev
  constructor
  · intro h
    have hmemS : ∀ i ∈ sortPerm s rev, i < s.length :=
      fun i hi => (mem_sortPerm s rev i).1 hi
    have hmemT : ∀ i ∈ sortPerm s rev, i < t.length :=
      fun i hi => lt_trans (hmemS i hi) h
    refine ⟨(sortPerm s rev).map (fun i => t.getD i 0),
            (sortPerm s rev).map (fun i => s.getD i 0), ?_, ?_, ?_, ?_⟩
    · rw [scores2recos, fancyIndex_eq_map t _ 0 hmemT, fancyIndex_eq_map s _ 0 hmemS]
    · simp [length_sortPerm]
    · simp [length_sortPerm]
    · simp [length_sortPerm, h]
  · intro h
    have hmem : t.length ∈ sortPerm s rev := (mem_sortPerm s rev t.length).2 h
    rw [scores2recos, fancyIndex_eq_none t _ t.length hmem (le_refl _)]

/-- C3 witness: both branches of the amended C3 at concrete inputs — a
shorter-scores call that silently truncates and a longer-scores call that
fails. -/
theorem claim_C3_length_mismatch_witness :
    (∃ ri rs, scores2recos [1/2] [7, 8] false = some (ri, rs) ∧
      ri.length = ([(1:ℚ)/2]).length ∧ rs.length = ([(1:ℚ)/2]).length ∧
      ri.length < ([7, 8] : List Nat).length) ∧
    scores2recos [1/2, 1/3] [7] false = none :=
  ⟨(claim_C3_length_mismatch [1/2] [7, 8] false).1 (by decide),
   (claim_C3_length_mismatch [1/2, 1/3] [7] false).2 (by decide)⟩

/-- C4: for equal-length inputs and either `rev`, `scores2recos` returns
a joint permutation of the inputs: the item/score pair sequence is a
permutation of the zipped input pairs (each output item keeps its
original score, duplicates pass through independently), the items are a
permutation of `target_i_indices`, the scores a permutation of `scores`,
and both outputs keep the input length. -/
theorem claim_C4_joint_permutation :
    ∀ (s : List ℚ) (t : List Nat) (rev : Bool), s.length = t.length →
      ∃ ri rs, scores2recos s t rev = some (ri, rs) ∧
        ri.length = t.length ∧ rs.length = s.length ∧
        (ri.zip rs).Perm (t.zip s) ∧ ri.Perm t ∧ rs.Perm s := by
  intro s t rev h
  refine ⟨_, _, scores2recos_eq_some s t rev h, ?_, ?_, ?_, ?_, ?_⟩
  · simp [length_sortPerm, h]
  · simp [length_sortPerm]
  · rw [List.zip_map']
    refine ((sortPerm_perm_range s rev).map (fun i => (t.getD i 0, s.getD i 0))).trans ?_
    have e : (List.range s.length).map (fun i => (t.getD i 0, s.getD i 0)) = t.zip s := by
      rw [← List.zip_map']
      congr 1
      · rw [h, map_getD_range]
      · rw [map_getD_range]
    rw [e]
  · refine ((sortPerm_perm_range s rev).map (fun i => t.getD i 0)).trans ?_
    rw [h, map_getD_range]
  · refine ((sortPerm_perm_range s rev).map (fun i => s.getD i 0)).trans ?_
    rw [map_getD_range]

/-- C4 witness: the joint-permutation property evaluated at a concrete
input with a duplicate item index. -/
theorem claim_C4_joint_permutation_witness :
    ∃ ri rs, scores2recos [1/2, 1/3] [9, 9] false = some (ri, rs) ∧
      ri.length = ([9, 9] : List Nat).length ∧
      rs.length = ([(1:ℚ)/2, 1/3]).length ∧
      (ri.zip rs).Perm (([9, 9] : List Nat).zip [1/2, 1/3]) ∧
      ri.Perm [9, 9] ∧ rs.Perm [1/2, 1/3] :=
  claim_C4_joint_permutation [1/2, 1/3] [9, 9] false rfl

/-- C9: for equal-length inputs, the `rev=true` result is exactly the
elementwise reversal of the `rev=false` result, in both components, since
the `rev` branch reverses the ascending sort permutation. -/
theorem claim_C9_rev_is_reverse :
    ∀ (s : List ℚ) (t : List Nat), s.length = t.length →
      ∃ ri rs, scores2recos s t false = some (ri, rs) ∧
        scores2recos s t true = some (ri.reverse, rs.reverse) := by
  intro s t h
  refine ⟨_, _, scores2recos_eq_some s t false h, ?_⟩
  rw [scores2recos_eq_some s t true h]
  have e : sortPerm s true = (sortPerm s false).reverse := by simp [sortPerm]
  rw [e, List.map_reverse, List.map_reverse]

/-- C9 witness: the reversal relation evaluated at the spec's three-item
scenario input. -/
theorem claim_C9_rev_is_reverse_witness :
    ∃ ri rs, scores2recos [3/10, 1/10, 2/10] [7, 8, 9] false = some (ri, rs) ∧
      scores2recos [3/10, 1/10, 2/10] [7, 8, 9] true = some (ri.reverse, rs.reverse) :=
  claim_C9_rev_is_reverse [3/10, 1/10, 2/10] [7, 8, 9] rfl

/-- C10: `scores2recos` mutates neither the recommender state nor its
inputs: as a method it returns the threaded state unchanged (all four
registry fields intact) and its result value depends only on the argument
values; in the source `np.argsort` and fancy indexing allocate fresh
arrays, so the embedding is a pure function and the inputs are immutable
values. -/
theorem claim_C10_scores2recos_pure :
    ∀ (st : RecState) (s : List ℚ) (t : List Nat) (rev : Bool),
      (scores2recosMethod st s t rev).1 = st ∧
      (scores2recosMethod st s t rev).1.n_user = st.n_user ∧
      (scores2recosMethod st s t rev).1.users = st.users ∧
      (scores2recosMethod st s t rev).1.n_item = st.n_item ∧
      (scores2recosMethod st s t rev).1.items = st.items ∧
      (scores2recosMethod st s t rev).2 = scores2recos s t rev ∧
      applyOp st (Op.scores2recosQ s t rev) = st :=
  fun _ _ _ _ => ⟨rfl, rfl, rfl, rfl, rfl, rfl, rfl⟩
